import Mathlib

/-!
Shallow embedding of the audix terminal music player (src/main.rs) and
verification of its specification claims.

The embedding models:
* `scan_music_files` / `scan_recursive` — the playlist scanner over a
  filesystem tree (directory entries with an explicit readability flag,
  since `fs::read_dir` can fail per directory);
* the playback-session commands of `play_music` — previous, restart,
  volume up/down, shuffle toggle — and the advance-on-empty and
  playlist-exhaustion steps of the session loop;
* `draw_progress_bar` — the progress-bar renderer;
* the control-flow skeleton of `play_music` relevant to terminal
  raw-mode acquisition and release.

Machine floats (`f32`/`f64`) are idealised as rationals; `Duration` is
modelled as whole seconds plus a nanosecond remainder, mirroring
`Duration::as_secs` / `Duration::as_secs_f64`.  Rust `usize` values that
are only ever incremented or decremented within bounds are modelled as
`Nat`, with saturating subtraction where the source uses
`saturating_sub` and explicit hypotheses where the source indexing would
panic out of bounds.
-/

namespace Audix

/-! ### String helpers

Character-level models of the Rust string/path operations used by the
scanner: `str::to_lowercase`, `Path::extension`, `Path::file_stem`,
path joining, and the byte-wise lexicographic comparison underlying
`Vec::<PathBuf>::sort`. -/

/-- Lowercase every character, modelling `str::to_lowercase` (the two
agree on ASCII extension strings). -/
def toLowerStr (s : String) : String := String.mk (s.data.map Char.toLower)

/-- Lexicographic comparison of character lists, modelling the byte-wise
comparison that orders Rust paths. -/
def lexLe : List Char → List Char → Bool
  | [], _ => true
  | _ :: _, [] => false
  | a :: as, b :: bs => if a = b then lexLe as bs else decide (a < b)

/-- Path comparison used by `music_files.sort()`. -/
def pathLe (a b : String) : Bool := lexLe a.data b.data

/-- Join a directory path and an entry name, modelling `Path::join` as
performed by `entry.path()`. -/
def joinPath (p n : String) : String := p ++ "/" ++ n

/-- Model of `Path::extension` on a file name: the portion after the
final `.`; `none` when there is no `.`, or when the name starts with its
only `.`. -/
def pathExt (name : String) : Option String :=
  match name.data.splitOn '.' with
  | [] => none
  | [_] => none
  | first :: rest =>
      if first = [] && rest.length == 1 then none
      else some (String.mk ((first :: rest).getLastD []))

/-- The supported audio extensions of `scan_music_files`. -/
def supported_extensions : List String := ["mp3", "wav", "flac", "ogg", "m4a"]

/-- The scanner's filter: the file's extension, lowercased, belongs to
`supported_extensions` (lines 87–91 of main.rs). -/
def isSupported (name : String) : Bool :=
  match pathExt name with
  | some ext => supported_extensions.contains (toLowerStr ext)
  | none => false

/-- Model of `Path::file_stem` on a file name: the name with its
`pathExt` extension (and the final dot) removed. -/
def fileStem (name : String) : String :=
  match name.data.splitOn '.' with
  | [] => name
  | [_] => name
  | first :: rest =>
      if first = [] && rest.length == 1 then name
      else String.mk (List.intercalate ['.'] ((first :: rest).dropLast))

/-- The final path component, modelling `Path::file_name`. -/
def fileName (path : String) : String :=
  String.mk ((path.data.splitOn '/').getLastD [])

/-! ### Scanner (`scan_music_files`, lines 71–107)

A directory tree is modelled by `Entry`: regular files, entries that are
neither files nor directories (skipped by the scanner), and directories
carrying a readability flag — `fs::read_dir` on an unreadable directory
returns `Err`, which `scan_recursive` propagates with `?`. -/

inductive Entry where
  | file (name : String)
  | other (name : String)
  | dir (name : String) (readable : Bool) (entries : List Entry)

mutual

/-- Model of `scan_recursive` on a single directory entry (the body of
the `for` loop, lines 80–95): directories recurse (propagating errors),
files are kept when their extension is supported, anything else is
skipped. -/
def scanEntry (p : String) : Entry → Except String (List String)
  | .file name => .ok (if isSupported name then [joinPath p name] else [])
  | .other _ => .ok []
  | .dir name r es =>
      if r then scanEntries (joinPath p name) es
      else .error "DirectoryUnreadable"

/-- Model of the `for entry in fs::read_dir(dir)?` loop over the entries
of one (readable) directory; the first `Err` aborts the whole loop via
`?`. -/
def scanEntries (p : String) : List Entry → Except String (List String)
  | [] => .ok []
  | e :: es =>
      match scanEntry p e with
      | .error m => .error m
      | .ok fs =>
          match scanEntries p es with
          | .error m => .error m
          | .ok rest => .ok (fs ++ rest)

end

mutual

/-- All directories in an entry are readable. -/
def allReadable : Entry → Bool
  | .file _ => true
  | .other _ => true
  | .dir _ r es => r && allReadableList es

def allReadableList : List Entry → Bool
  | [] => true
  | e :: es => allReadable e && allReadableList es

end

mutual

/-- The set (in traversal order) of supported files in an entry,
ignoring readability: the reference against which the scanner's output
is compared. -/
def supportedFiles (p : String) : Entry → List String
  | .file name => if isSupported name then [joinPath p name] else []
  | .other _ => []
  | .dir name _ es => supportedFilesList (joinPath p name) es

def supportedFilesList (p : String) : List Entry → List String
  | [] => []
  | e :: es => supportedFiles p e ++ supportedFilesList p es

end

/-- The root directory handed to `scan_music_files`: its path string,
whether `fs::read_dir` succeeds on it, and its entries. -/
structure RootDir where
  path : String
  readable : Bool
  entries : List Entry

/-- Model of `scan_music_files` (lines 71–107): run the recursive scan
from the root, fail if no supported file was found, otherwise sort the
collected paths. -/
def scan_music_files (d : RootDir) : Except String (List String) :=
  match (if d.readable then scanEntries d.path d.entries
         else Except.error "DirectoryUnreadable") with
  | .error m => .error m
  | .ok files =>
      if files.isEmpty then .error "No supported audio files found in directory"
      else .ok (files.mergeSort pathLe)

/-! ### Player state (struct `PlayerState`, lines 46–69)

`f32` volume and `Duration` position/duration are idealised as
rationals (seconds). -/

structure PlayerState where
  current_track : Nat
  is_playing : Bool
  volume : ℚ
  position : ℚ
  duration : ℚ
  track_name : String
  playlist_len : Nat
deriving DecidableEq

/-- Model of `PlayerState::default` (lines 57–69). -/
def PlayerState.default : PlayerState :=
  { current_track := 0, is_playing := false, volume := 0.7, position := 0,
    duration := 0, track_name := "", playlist_len := 0 }

/-- Model of `get_track_duration` (lines 239–241): a fixed 180-second
placeholder. -/
def get_track_duration : ℚ := 180

/-! ### Advance-on-empty (lines 278–316)

Opening and decoding a track is an effect of the environment; its
outcome is a parameter.  The step returns the new cursor, the new
shared state, whether a source was appended to the sink, and whether
the iteration was cut short by `continue`. -/

inductive OpenResult where
  | ok
  | openFailed (msg : String)
  | decodeFailed (msg : String)
deriving DecidableEq

structure AdvanceOut where
  cursor : Nat
  state : PlayerState
  appended : Bool
  continued : Bool
deriving DecidableEq

/-- Model of the advance-on-empty block (lines 278–316).  When the sink
is empty and the cursor is in range, the track at the cursor is opened:
on success the shared state is rewritten and the cursor incremented
(lines 291–302); on an open or decode failure the failure is logged,
the cursor is incremented and the iteration `continue`s (lines
304–314).  The indexing `playlist[current_index]` is in range under the
guard, so `getD` is exact. -/
def advanceOnEmpty (playlist : List String) (cursor : Nat) (sinkEmpty : Bool)
    (st : PlayerState) (openTrack : String → OpenResult) : AdvanceOut :=
  if sinkEmpty && decide (cursor < playlist.length) then
    let file_path := playlist.getD cursor ""
    let track_name := fileStem (fileName file_path)
    match openTrack file_path with
    | .ok =>
        { cursor := cursor + 1,
          state := { st with current_track := cursor, track_name := track_name,
                             duration := get_track_duration, position := 0,
                             is_playing := true },
          appended := true, continued := false }
    | .openFailed _ =>
        { cursor := cursor + 1, state := st, appended := false, continued := true }
    | .decodeFailed _ =>
        { cursor := cursor + 1, state := st, appended := false, continued := true }
  else
    { cursor := cursor, state := st, appended := false, continued := false }

/-- Model of the exhaustion check (lines 318–325): when the cursor has
run past the playlist and the sink is drained, the cursor resets to 0
and the loop `continue`s when the playlist is non-empty, `break`s
otherwise.  Returns the new cursor and whether the loop `break`s. -/
def exhaustedCheck (len cursor : Nat) (sinkEmpty : Bool) : Nat × Bool :=
  if decide (cursor ≥ len) && sinkEmpty then (0, len == 0) else (cursor, false)

/-! ### Keyboard commands (lines 360–406) -/

/-- Volume-up (lines 360–363): add the fixed step 0.05, clamp above at
1.0. -/
def volumeUp (v : ℚ) : ℚ := min (v + 0.05) 1

/-- Volume-down (lines 364–367): subtract the fixed step 0.05, clamp
below at 0.0. -/
def volumeDown (v : ℚ) : ℚ := max (v - 0.05) 0

/-- A volume key press: new stored volume together with the level
pushed to the sink by the immediately following `set_volume` call. -/
def volumeKey (up : Bool) (v : ℚ) : ℚ × ℚ :=
  let v2 := if up then volumeUp v else volumeDown v
  (v2, v2)

inductive VolCmd where
  | up
  | down
deriving DecidableEq

/-- Apply a sequence of volume-up/volume-down key presses to the stored
volume. -/
def applyVolCmds (v : ℚ) : List VolCmd → ℚ
  | [] => v
  | .up :: cs => applyVolCmds (volumeUp v) cs
  | .down :: cs => applyVolCmds (volumeDown v) cs

/-- Model of the previous command (lines 374–381): returns the new
cursor and whether `sink.stop()` was called. -/
def previousCommand (len cursor : Nat) : Nat × Bool :=
  if cursor > 1 then (cursor - 2, true)
  else if cursor == 1 then (len - 1, true)
  else (cursor, false)

/-- Model of the restart command (lines 382–386): returns the new
cursor and whether `sink.stop()` was called. -/
def restartCommand (cursor : Nat) : Nat × Bool :=
  if cursor > 0 then (cursor - 1, true) else (cursor, false)

/-! ### Shuffle toggle (lines 387–406) -/

/-- Model of `Iterator::position`: the index of the first element
satisfying the predicate. -/
def position (p : α → Bool) : List α → Option Nat
  | [] => none
  | a :: l => if p a then some 0 else (position p l).map (fun i => i + 1)

/-- Model of `Vec::swap i j`: exchange the elements at two in-range
indices (`Vec::swap` panics out of range; both uses here are in range,
and the model leaves the list unchanged otherwise). -/
def listSwap (l : List α) (i j : Nat) : List α :=
  match l.get? i, l.get? j with
  | some a, some b => (l.set i b).set j a
  | _, _ => l

/-- The track captured as currently playing when shuffle is enabled
(lines 392–396): the entry at `cursor - 1`, or the first entry when the
cursor is 0.  Both indexings are in range under the session's cursor
invariant, so `getD` is exact. -/
def capturedTrack (playlist : List String) (cursor : Nat) : String :=
  if cursor > 0 then playlist.getD (cursor - 1) "" else playlist.getD 0 ""

/-- Model of the shuffle-enable branch (lines 389–401).  The uniform
random permutation produced by `SliceRandom::shuffle` is passed in as
`shuffled`; afterwards the captured track is searched for, swapped to
position 0, and the cursor set to 1 (when found — it always is, since
shuffling preserves membership). -/
def shuffleEnable (playlist : List String) (cursor : Nat)
    (shuffled : List String) : List String × Nat :=
  let current := capturedTrack playlist cursor
  match position (fun x => x == current) shuffled with
  | some pos => (listSwap shuffled 0 pos, 1)
  | none => (shuffled, cursor)

/-- An index list `σ` applied as a reordering when it is a permutation
of `0, …, n-1`, and as the identity otherwise: the possible outcomes of
`SliceRandom::shuffle`, whose result is always a genuine permutation of
the slice. -/
def applyPerm (l : List String) (σ : List Nat) : List String :=
  if σ.Perm (List.range l.length) then σ.map (fun i => l.getD i "") else l

/-! ### Session-level cursor invariant (claim C8)

A projection of the `play_music` loop onto the data the cursor
invariant concerns: the active playlist, the cursor, and the shuffle
flag.  `files` is the scanned list the disable branch restores from
(line 403). -/

structure Session where
  playlist : List String
  cursor : Nat
  shuffle : Bool
deriving DecidableEq

/-- One cursor-affecting operation of the session loop. -/
inductive Op where
  | advance (sinkEmpty : Bool) (res : OpenResult)
  | next
  | previous
  | restart
  | shuffleToggle (σ : List Nat)
  | exhausted (sinkEmpty : Bool)

/-- Apply one operation of the session loop to the session state,
mirroring the corresponding blocks of `play_music`:
advance-on-empty increments the cursor whenever the sink is empty and
the cursor in range (lines 278–316, on success and failure alike);
next only stops the sink (line 373); previous and restart move the
cursor as in lines 374–386; the shuffle toggle either applies a random
permutation, swaps the captured track to the front and sets the cursor
to 1, or restores the sorted scan list (lines 387–406); the exhaustion
check resets the cursor to 0 (lines 318–325). -/
def applyOp (files : List String) (s : Session) : Op → Session
  | .advance sinkEmpty _ =>
      if sinkEmpty && decide (s.cursor < s.playlist.length) then
        { s with cursor := s.cursor + 1 }
      else s
  | .next => s
  | .previous => { s with cursor := (previousCommand s.playlist.length s.cursor).1 }
  | .restart => { s with cursor := (restartCommand s.cursor).1 }
  | .shuffleToggle σ =>
      if s.shuffle then
        { playlist := files.mergeSort pathLe, cursor := s.cursor, shuffle := false }
      else
        let r := shuffleEnable s.playlist s.cursor (applyPerm s.playlist σ)
        { playlist := r.1, cursor := r.2, shuffle := true }
  | .exhausted sinkEmpty =>
      { s with cursor := (exhaustedCheck s.playlist.length s.cursor sinkEmpty).1 }

/-- Run a list of session-loop operations from an initial state. -/
def runOps (files : List String) (s : Session) (ops : List Op) : Session :=
  ops.foldl (applyOp files) s

/-! ### Progress bar (`draw_progress_bar`, lines 138–148) -/

/-- Model of `std::time::Duration`: whole seconds and a nanosecond
remainder. -/
structure Dur where
  secs : Nat
  nanos : Nat
  nanos_lt : nanos < 1000000000

/-- Model of `Duration::as_secs`. -/
def Dur.asSecs (d : Dur) : Nat := d.secs

/-- Model of `Duration::as_secs_f64`, idealised as a rational. -/
def Dur.asSecsF (d : Dur) : ℚ := d.secs + (d.nanos : ℚ) / 1000000000

/-- Model of `draw_progress_bar` (lines 138–148): all-dashes when the
duration truncates to zero seconds; otherwise the filled prefix is the
truncated fraction of the width, capped at the width, and the dashes
fill the rest via saturating subtraction. -/
def draw_progress_bar (position duration : Dur) (width : Nat) : String :=
  if duration.asSecs = 0 then String.mk (List.replicate width '─')
  else
    let progress : ℚ := position.asSecsF / duration.asSecsF
    let filled : Nat := Int.toNat ⌊progress * width⌋
    let remaining : Nat := width - filled
    String.mk (List.replicate (min filled width) '━') ++
      String.mk (List.replicate remaining '─')

/-! ### Terminal raw-mode discipline (claim C9)

A projection of `play_music`'s control flow onto the poll/read results
and the terminal mode.  `enable_raw_mode` runs before the loop (line
271); inside the loop, `event::poll(..)?` and `event::read()?` (lines
327–328) propagate an `Err` out of `play_music` immediately, while the
quit key `break`s to the code after the loop, where `disable_raw_mode`
runs (line 430). -/

inductive Key where
  | space
  | q
  | left
  | right
  | r
  | s
  | up
  | down
  | unknown
deriving DecidableEq

/-- One bounded input poll: a propagated I/O error, a timeout with no
event, or a key event. -/
inductive PollEvent where
  | timeout
  | key (k : Key)
deriving DecidableEq

/-- How one run of `play_music` ended, together with whether the
terminal was still in raw mode when the function returned. -/
structure ExitInfo where
  result : Except String Unit
  rawModeAtReturn : Bool

/-- The loop's exit behaviour as a function of the successive poll
results: an `Err` from the poll exits the whole function via `?`; the
quit key `break`s out of the loop; everything else continues. Returns
`none` while the script runs out without an exit. -/
def loopUntilExit : List (Except String PollEvent) → Option (Except String Unit)
  | [] => none
  | .error m :: _ => some (.error m)
  | .ok (.key .q) :: _ => some (.ok ())
  | .ok _ :: rest => loopUntilExit rest

/-- Raw-mode lifecycle of `play_music`: raw mode is enabled before the
loop; an error exit propagates with `?` before `disable_raw_mode` is
reached, a `break` exit falls through to `disable_raw_mode` (line 430). -/
def play_music_rawmode (polls : List (Except String PollEvent)) : Option ExitInfo :=
  let raw := true
  match loopUntilExit polls with
  | some (.error m) => some { result := .error m, rawModeAtReturn := raw }
  | some (.ok ()) => some { result := .ok (), rawModeAtReturn := false }
  | none => none

/-! ### Order lemmas for the path comparison -/

theorem lexLe_total (a b : List Char) : lexLe a b = true ∨ lexLe b a = true := by
  induction a generalizing b with
  | nil => left; rfl
  | cons x xs ih =>
      cases b with
      | nil => right; rfl
      | cons y ys =>
          by_cases hxy : x = y
          · subst hxy
            rcases ih ys with h | h
            · left; simpa [lexLe] using h
            · right; simpa [lexLe] using h
          · rcases lt_or_gt_of_ne hxy with h | h
            · left; simp [lexLe, hxy, h]
            · right; simp [lexLe, Ne.symm hxy, h, not_lt_of_gt h]

theorem lexLe_trans (a b c : List Char) (hab : lexLe a b = true)
    (hbc : lexLe b c = true) : lexLe a c = true := by
  induction a generalizing b c with
  | nil => rfl
  | cons x xs ih =>
      cases b with
      | nil => simp [lexLe] at hab
      | cons y ys =>
          cases c with
          | nil => simp [lexLe] at hbc
          | cons z zs =>
              by_cases hxy : x = y <;> by_cases hyz : y = z
              · subst hxy; subst hyz
                simp only [lexLe, if_pos rfl] at hab hbc ⊢
                exact ih ys zs hab hbc
              · subst hxy
                simp only [lexLe, if_pos rfl] at hab
                simp only [lexLe, if_neg hyz] at hbc
                simp only [lexLe, if_neg hyz]
                exact hbc
              · subst hyz
                simp only [lexLe, if_pos rfl] at hbc
                simp only [lexLe, if_neg hxy] at hab
                simp only [lexLe, if_neg hxy]
                exact hab
              · simp only [lexLe, if_neg hxy] at hab
                simp only [lexLe, if_neg hyz] at hbc
                have hxz : x < z :=
                  lt_trans (of_decide_eq_true hab) (of_decide_eq_true hbc)
                simp [lexLe, ne_of_lt hxz, hxz]

theorem pathLe_trans (a b c : String) (hab : pathLe a b = true)
    (hbc : pathLe b c = true) : pathLe a c = true :=
  lexLe_trans a.data b.data c.data hab hbc

theorem pathLe_total (a b : String) : (pathLe a b || pathLe b a) = true := by
  rcases lexLe_total a.data b.data with h | h <;> simp [pathLe, h]

/-! ### Cursor arithmetic helpers -/

theorem previousCommand_lt (len cursor : Nat) (hlen : 0 < len)
    (hc : cursor ≤ len) : (previousCommand len cursor).1 < len := by
  unfold previousCommand
  by_cases h1 : cursor > 1
  · simp only [if_pos h1]; omega
  · by_cases h2 : cursor == 1
    · simp only [if_neg h1, if_pos h2]; omega
    · simp only [if_neg h1, if_neg h2]
      have : cursor = 0 := by
        rcases eq_or_ne cursor 1 with h | h
        · exact absurd (beq_iff_eq.mpr h) (by simpa using h2)
        · omega
      omega

/-! ### Claim C2: the previous command -/

/-- Claim C2: for every non-empty playlist, the previous command sets
the cursor to `cursor - 2` when `cursor > 1`, to `len - 1` (the last
track index) when `cursor = 1`, and leaves the cursor unchanged when
`cursor = 0`; it stops the sink exactly in the first two cases, and the
resulting cursor is always in range. -/
theorem previous_command_spec (len cursor : Nat) (hlen : 0 < len)
    (hc : cursor ≤ len) :
    (cursor > 1 → previousCommand len cursor = (cursor - 2, true))
    ∧ (cursor = 1 → previousCommand len cursor = (len - 1, true))
    ∧ (cursor = 0 → previousCommand len cursor = (cursor, false))
    ∧ (previousCommand len cursor).1 < len := by
  refine ⟨?_, ?_, ?_, previousCommand_lt len cursor hlen hc⟩
  · intro h; simp [previousCommand, h]
  · intro h; subst h; simp [previousCommand]
  · intro h; subst h; simp [previousCommand]

/-- Witness for `previous_command_spec` at `len = 3`, `cursor = 2`. -/
theorem previous_command_spec_witness :
    ((2:Nat) > 1 → previousCommand 3 2 = (2 - 2, true))
    ∧ ((2:Nat) = 1 → previousCommand 3 2 = (3 - 1, true))
    ∧ ((2:Nat) = 0 → previousCommand 3 2 = (2, false))
    ∧ (previousCommand 3 2).1 < 3 :=
  previous_command_spec 3 2 (by decide) (by decide)

/-! ### Claim C4: looping at playlist exhaustion -/

/-- Claim C4: when the cursor has reached the playlist length and the
sink is empty, a non-empty playlist makes the session reset the cursor
to 0 and continue the loop (the `Bool` component, whether the loop
`break`s, is `false`): the session does not terminate at playlist
exhaustion. -/
theorem exhausted_loop_spec (len cursor : Nat) (sinkEmpty : Bool)
    (hlen : 0 < len) (hc : len ≤ cursor) (hs : sinkEmpty = true) :
    exhaustedCheck len cursor sinkEmpty = (0, false) := by
  subst hs
  have hge : decide (cursor ≥ len) = true := decide_eq_true hc
  have hz : (len == 0) = false := by
    simpa using Nat.pos_iff_ne_zero.mp hlen
  simp [exhaustedCheck, hge, hz]

/-- Witness for `exhausted_loop_spec` at `len = cursor = 3`. -/
theorem exhausted_loop_spec_witness : exhaustedCheck 3 3 true = (0, false) :=
  exhausted_loop_spec 3 3 true (by decide) (by decide) rfl

/-! ### Claim C7: volume stepping and clamping -/

/-- Claim C7: volume-up adds the fixed step 0.05 clamping above at 1,
volume-down subtracts 0.05 clamping below at 0 (definitions `volumeUp`
and `volumeDown`); any sequence of volume commands keeps a stored level
that started within `[0, 1]` inside `[0, 1]`; and from 0.70 five
consecutive ups yield exactly 0.95 — not clamped prematurely — while a
sixth yields 1. -/
theorem volume_commands_spec (v : ℚ) (cmds : List VolCmd)
    (h0 : 0 ≤ v) (h1 : v ≤ 1) :
    (0 ≤ applyVolCmds v cmds ∧ applyVolCmds v cmds ≤ 1)
    ∧ applyVolCmds 0.7 [.up, .up, .up, .up, .up] = 0.95
    ∧ applyVolCmds 0.7 [.up, .up, .up, .up, .up, .up] = 1 := by
  refine ⟨?_, ?_, ?_⟩
  · induction cmds generalizing v with
    | nil => exact ⟨h0, h1⟩
    | cons c cs ih =>
        cases c with
        | up =>
            refine ih (volumeUp v) (le_min (by linarith) (by norm_num)) ?_
            exact min_le_right _ _
        | down =>
            refine ih (volumeDown v) (le_max_right _ _) ?_
            exact max_le (by linarith) (by norm_num)
  · norm_num [applyVolCmds, volumeUp, min_def]
  · norm_num [applyVolCmds, volumeUp, min_def]

/-- Witness for `volume_commands_spec` at `v = 0.7` and a single
volume-up command. -/
theorem volume_commands_spec_witness :
    (0 ≤ applyVolCmds 0.7 [.up] ∧ applyVolCmds 0.7 [.up] ≤ 1)
    ∧ applyVolCmds 0.7 [.up, .up, .up, .up, .up] = 0.95
    ∧ applyVolCmds 0.7 [.up, .up, .up, .up, .up, .up] = 1 :=
  volume_commands_spec 0.7 [.up] (by norm_num) (by norm_num)

/-! ### Claim C10: totality of the progress bar -/

/-- Claim C10: the progress-bar renderer is total — when the duration
truncates to zero seconds it returns exactly `width` dash characters
(without dividing), and in every case its output has exactly `width`
characters: the filled part is capped at `width` and the remainder is a
saturating subtraction. -/
theorem draw_progress_bar_spec (pos dur : Dur) (width : Nat) :
    (draw_progress_bar pos dur width).length = width
    ∧ (dur.asSecs = 0 →
        draw_progress_bar pos dur width = String.mk (List.replicate width '─')) := by
  constructor
  · unfold draw_progress_bar
    by_cases h : dur.asSecs = 0
    · simp [h, String.length]
    · simp only [if_neg h, String.length_append]
      simp [String.length]
      omega
  · intro h
    simp [draw_progress_bar, h]

/-- Witness for `draw_progress_bar_spec`: a 3-second position over a
zero duration with width 4, and over a 10-second duration with
width 4. -/
theorem draw_progress_bar_spec_witness :
    (draw_progress_bar ⟨3, 0, by norm_num⟩ ⟨0, 0, by norm_num⟩ 4).length = 4
    ∧ draw_progress_bar ⟨3, 0, by norm_num⟩ ⟨0, 0, by norm_num⟩ 4 =
        String.mk (List.replicate 4 '─')
    ∧ (draw_progress_bar ⟨3, 0, by norm_num⟩ ⟨10, 0, by norm_num⟩ 4).length = 4 :=
  ⟨(draw_progress_bar_spec ⟨3, 0, by norm_num⟩ ⟨0, 0, by norm_num⟩ 4).1,
   (draw_progress_bar_spec ⟨3, 0, by norm_num⟩ ⟨0, 0, by norm_num⟩ 4).2 rfl,
   (draw_progress_bar_spec ⟨3, 0, by norm_num⟩ ⟨10, 0, by norm_num⟩ 4).1⟩

/-! ### Claim C9: terminal raw mode on exit paths -/

/-- Claim C9 fails on the code: on the clean quit path raw mode is
disabled before `play_music` returns, but on the error path of the
input poll the `?` operator propagates the error out of `play_music`
before `terminal::disable_raw_mode` (line 430) is reached, leaving the
terminal in raw mode.  This theorem evaluates the exit-path model at
both exits. -/
theorem raw_mode_exit_paths :
    play_music_rawmode [Except.error "poll failed"] =
      some { result := Except.error "poll failed", rawModeAtReturn := true }
    ∧ play_music_rawmode [Except.ok (PollEvent.key Key.q)] =
      some { result := Except.ok (), rawModeAtReturn := false } :=
  ⟨rfl, rfl⟩

/-! ### Claim C3: a bad track is skipped, not fatal -/

/-- Claim C3: during the advance-on-empty step, if opening or decoding
the track at the cursor fails, the cursor is incremented past the
offending track, the shared player state is left unchanged by the
failed attempt, nothing is appended to the sink, and the iteration
`continue`s — the step contains no `break` or early return, so a single
unreadable or undecodable file never terminates the session. -/
theorem advance_failure_spec (playlist : List String) (cursor : Nat)
    (st : PlayerState) (openTrack : String → OpenResult)
    (hc : cursor < playlist.length)
    (hfail : openTrack (playlist.getD cursor "") ≠ OpenResult.ok) :
    advanceOnEmpty playlist cursor true st openTrack =
      { cursor := cursor + 1, state := st, appended := false, continued := true } := by
  unfold advanceOnEmpty
  simp only [Bool.true_and, decide_eq_true hc, if_pos rfl]
  cases h : openTrack (playlist.getD cursor "") with
  | ok => exact absurd h hfail
  | openFailed m => rfl
  | decodeFailed m => rfl

/-- Witness for `advance_failure_spec`: a one-track playlist whose only
file fails to open. -/
theorem advance_failure_spec_witness :
    advanceOnEmpty ["m/a.mp3"] 0 true PlayerState.default
        (fun _ => OpenResult.openFailed "permission denied") =
      { cursor := 1, state := PlayerState.default, appended := false,
        continued := true } :=
  advance_failure_spec ["m/a.mp3"] 0 PlayerState.default
    (fun _ => OpenResult.openFailed "permission denied") (by decide)
    (by intro h; exact OpenResult.noConfusion h)

/-! ### Lemmas about `position` and `listSwap` -/

theorem position_of_mem (p : α → Bool) (l : List α) (x : α) (hx : x ∈ l)
    (hp : p x = true) : ∃ i, position p l = some i := by
  induction l with
  | nil => cases hx
  | cons a t ih =>
      by_cases ha : p a = true
      · exact ⟨0, by simp [position, ha]⟩
      · have hxt : x ∈ t := by
          rcases List.mem_cons.mp hx with h | h
          · subst h; exact absurd hp ha
          · exact h
        obtain ⟨j, hj⟩ := ih hxt
        exact ⟨j + 1, by simp [position, ha, hj]⟩

theorem position_lt (p : α → Bool) (l : List α) (i : Nat)
    (h : position p l = some i) : i < l.length := by
  induction l generalizing i with
  | nil => simp [position] at h
  | cons a t ih =>
      by_cases ha : p a = true
      · simp only [position, if_pos ha, Option.some.injEq] at h
        simp only [List.length_cons]
        omega
      · simp only [position, if_neg ha, Option.map_eq_some'] at h
        obtain ⟨j, hj, rfl⟩ := h
        have := ih j hj
        simp
        omega

theorem position_getD (p : α → Bool) (l : List α) (i : Nat) (d : α)
    (h : position p l = some i) : p (l.getD i d) = true := by
  induction l generalizing i with
  | nil => simp [position] at h
  | cons a t ih =>
      by_cases ha : p a = true
      · simp [position, ha] at h
        subst h
        simpa using ha
      · simp only [position, if_neg ha, Option.map_eq_some'] at h
        obtain ⟨j, hj, rfl⟩ := h
        simpa [List.getD_cons_succ] using ih j hj

theorem count_set_comm [DecidableEq α] (l : List α) (i : Nat) (b x : α)
    (hi : i < l.length) :
    (l.set i b).count x + (if l[i] = x then 1 else 0) =
      l.count x + (if b = x then 1 else 0) := by
  induction l generalizing i with
  | nil => simp at hi
  | cons a t ih =>
      cases i with
      | zero =>
          simp only [List.set_cons_zero, List.count_cons, List.getElem_cons_zero]
          by_cases hax : a = x <;> by_cases hbx : b = x <;>
            simp [hax, hbx] <;> omega
      | succ k =>
          have hk : k < t.length := by simpa using hi
          have := ih k hk
          simp only [List.set_cons_succ, List.count_cons, List.getElem_cons_succ]
          by_cases hax : a = x <;> simp [hax] <;> omega

theorem listSwap_perm [DecidableEq α] (l : List α) (i j : Nat) :
    (listSwap l i j).Perm l := by
  unfold listSwap
  cases hi : l.get? i with
  | none => exact List.Perm.refl l
  | some a =>
      cases hj : l.get? j with
      | none => exact List.Perm.refl l
      | some b =>
          have hi' : i < l.length := (List.get?_eq_some.mp hi).1
          have hj' : j < l.length := (List.get?_eq_some.mp hj).1
          have hj'' : j < (l.set i b).length := by simpa using hj'
          have hia : l[i] = a := by
            simpa [List.get_eq_getElem] using (List.get?_eq_some.mp hi).2
          have hjb : l[j] = b := by
            simpa [List.get_eq_getElem] using (List.get?_eq_some.mp hj).2
          rw [List.perm_iff_count]
          intro x
          have h1 := count_set_comm (l.set i b) j a x hj''
          have h2 := count_set_comm l i b x hi'
          have hgb : (l.set i b)[j] = b := by
            rw [List.getElem_set]
            split
            · rfl
            · exact hjb
          rw [hgb] at h1
          rw [hia] at h2
          by_cases hax : a = x <;> by_cases hbx : b = x <;>
            simp [hax, hbx] at h1 h2 ⊢ <;> omega

theorem listSwap_length [DecidableEq α] (l : List α) (i j : Nat) :
    (listSwap l i j).length = l.length :=
  (listSwap_perm l i j).length_eq

theorem listSwap_zero_getD [DecidableEq α] (l : List α) (pos : Nat) (d : α)
    (hpos : pos < l.length) :
    (listSwap l 0 pos).getD 0 d = l[pos] := by
  have h0 : 0 < l.length := Nat.lt_of_le_of_lt (Nat.zero_le pos) hpos
  have hi : l.get? 0 = some l[0] := by
    simpa [List.get_eq_getElem] using List.get?_eq_get h0
  have hj : l.get? pos = some l[pos] := by
    simpa [List.get_eq_getElem] using List.get?_eq_get hpos
  unfold listSwap
  rw [hi, hj]
  have hlen : 0 < ((l.set 0 l[pos]).set pos l[0]).length := by
    simpa using h0
  rw [List.getD_eq_getElem _ _ hlen, List.getElem_set]
  split
  · rename_i hp0
    simp [← hp0]
  · rw [List.getElem_set]
    simp

theorem capturedTrack_mem (playlist : List String) (cursor : Nat)
    (hne : playlist ≠ []) (hc : cursor ≤ playlist.length) :
    capturedTrack playlist cursor ∈ playlist := by
  have hlen : 0 < playlist.length := List.length_pos.mpr hne
  unfold capturedTrack
  split
  · rename_i hpos
    have hlt : cursor - 1 < playlist.length := by omega
    rw [List.getD_eq_getElem _ _ hlt]
    exact List.getElem_mem hlt
  · rw [List.getD_eq_getElem _ _ hlen]
    exact List.getElem_mem hlen

/-! ### Claim C1: shuffle-enable preserves the audible track -/

/-- Claim C1: for every non-empty playlist and in-range cursor, when
the shuffle toggle enables shuffle (the random permutation of the
playlist being quantified over as `shuffled`): the track considered
currently audible — `capturedTrack`, the entry at `cursor - 1`, or the
first entry when the cursor is 0 — ends up at position 0 of the
reordered playlist, the reordered playlist is a permutation of the old
one, and the cursor equals 1 afterwards. -/
theorem shuffle_enable_spec (playlist shuffled : List String) (cursor : Nat)
    (hne : playlist ≠ []) (hc : cursor ≤ playlist.length)
    (hperm : shuffled.Perm playlist) :
    ((shuffleEnable playlist cursor shuffled).1).Perm playlist
    ∧ ((shuffleEnable playlist cursor shuffled).1).getD 0 "" =
        capturedTrack playlist cursor
    ∧ (shuffleEnable playlist cursor shuffled).2 = 1 := by
  have hmem : capturedTrack playlist cursor ∈ shuffled :=
    hperm.mem_iff.mpr (capturedTrack_mem playlist cursor hne hc)
  obtain ⟨i, hi⟩ :=
    position_of_mem (fun x => x == capturedTrack playlist cursor) shuffled
      (capturedTrack playlist cursor) hmem (beq_self_eq_true _)
  have hlt := position_lt _ _ _ hi
  have hgd := position_getD _ _ _ "" hi
  have hval : shuffled.getD i "" = capturedTrack playlist cursor :=
    beq_iff_eq.mp hgd
  simp only [shuffleEnable, hi]
  refine ⟨(listSwap_perm shuffled 0 i).trans hperm, ?_, by trivial⟩
  rw [listSwap_zero_getD shuffled i "" hlt]
  rw [List.getD_eq_getElem _ _ hlt] at hval
  exact hval

/-- Witness for `shuffle_enable_spec`: playlist `[a, b, c]` at cursor 2
(track `b` audible), with the random permutation producing
`[c, a, b]`. -/
theorem shuffle_enable_spec_witness :
    ((shuffleEnable ["a", "b", "c"] 2 ["c", "a", "b"]).1).Perm ["a", "b", "c"]
    ∧ ((shuffleEnable ["a", "b", "c"] 2 ["c", "a", "b"]).1).getD 0 "" =
        capturedTrack ["a", "b", "c"] 2
    ∧ (shuffleEnable ["a", "b", "c"] 2 ["c", "a", "b"]).2 = 1 :=
  shuffle_enable_spec ["a", "b", "c"] ["c", "a", "b"] 2 (by decide) (by decide)
    (by decide)

/-! ### Scanner lemmas -/

mutual

theorem scanEntry_ok_of_allReadable (p : String) (e : Entry)
    (h : allReadable e = true) : scanEntry p e = .ok (supportedFiles p e) := by
  cases e with
  | file name => rfl
  | other name => rfl
  | dir name r es =>
      have hr : r = true ∧ allReadableList es = true := by
        simpa [allReadable, Bool.and_eq_true] using h
      rw [hr.1] at h ⊢
      simp only [scanEntry, if_pos rfl, supportedFiles]
      exact scanEntries_ok_of_allReadable (joinPath p name) es hr.2

theorem scanEntries_ok_of_allReadable (p : String) (es : List Entry)
    (h : allReadableList es = true) :
    scanEntries p es = .ok (supportedFilesList p es) := by
  cases es with
  | nil => rfl
  | cons e es =>
      have he : allReadable e = true ∧ allReadableList es = true := by
        simpa [allReadableList, Bool.and_eq_true] using h
      have h1 := scanEntry_ok_of_allReadable p e he.1
      have h2 := scanEntries_ok_of_allReadable p es he.2
      simp only [scanEntries, h1, h2, supportedFilesList]

end

mutual

theorem scanEntry_isOk_eq (p : String) (e : Entry) :
    (scanEntry p e).isOk = allReadable e := by
  cases e with
  | file name => rfl
  | other name => rfl
  | dir name r es =>
      cases r with
      | true =>
          simpa [scanEntry, allReadable] using
            scanEntries_isOk_eq (joinPath p name) es
      | false => rfl

theorem scanEntries_isOk_eq (p : String) (es : List Entry) :
    (scanEntries p es).isOk = allReadableList es := by
  cases es with
  | nil => rfl
  | cons e es =>
      have h1 := scanEntry_isOk_eq p e
      have h2 := scanEntries_isOk_eq p es
      cases he : scanEntry p e with
      | error m =>
          rw [he] at h1
          simp [scanEntries, he, allReadableList, ← h1, Except.isOk, Except.toBool]
      | ok v =>
          rw [he] at h1
          cases hes : scanEntries p es with
          | error m =>
              rw [hes] at h2
              simp [scanEntries, he, hes, allReadableList, ← h1, ← h2,
                Except.isOk, Except.toBool]
          | ok w =>
              rw [hes] at h2
              simp [scanEntries, he, hes, allReadableList, ← h1, ← h2,
                Except.isOk, Except.toBool]

end

mutual

theorem scanEntry_error_of_unreadable (p : String) (e : Entry)
    (h : allReadable e = false) : ∃ m, scanEntry p e = .error m := by
  cases e with
  | file name => simp [allReadable] at h
  | other name => simp [allReadable] at h
  | dir name r es =>
      cases hr : r with
      | false => exact ⟨"DirectoryUnreadable", by simp [scanEntry]⟩
      | true =>
          rw [hr] at h
          have hes : allReadableList es = false := by
            simpa [allReadable] using h
          obtain ⟨m, hm⟩ := scanEntries_error_of_unreadable (joinPath p name) es hes
          exact ⟨m, by simp [scanEntry, hm]⟩

theorem scanEntries_error_of_unreadable (p : String) (es : List Entry)
    (h : allReadableList es = false) : ∃ m, scanEntries p es = .error m := by
  cases es with
  | nil => simp [allReadableList] at h
  | cons e es =>
      cases he : scanEntry p e with
      | error m => exact ⟨m, by simp [scanEntries, he]⟩
      | ok v =>
          have hre : allReadable e = true := by
            have := scanEntry_isOk_eq p e
            rw [he] at this
            simpa [Except.isOk, Except.toBool] using this.symm
          have hes : allReadableList es = false := by
            rw [allReadableList, hre, Bool.true_and] at h
            exact h
          obtain ⟨m, hm⟩ := scanEntries_error_of_unreadable p es hes
          exact ⟨m, by simp [scanEntries, he, hm]⟩

end

/-! ### Claim C5: the scanner's functional contract -/

/-- Claim C5: over a readable directory tree the scanner returns
exactly the files — including files in nested subdirectories — whose
extension is case-insensitively one of mp3, wav, flac, ogg, m4a
(`supportedFilesList`, the traversal-order list of exactly those
files), sorted by full path; and it returns an error when that set is
empty. -/
theorem scan_music_files_spec (d : RootDir) (hr : d.readable = true)
    (hall : allReadableList d.entries = true) :
    (supportedFilesList d.path d.entries = [] →
        scan_music_files d = .error "No supported audio files found in directory")
    ∧ (supportedFilesList d.path d.entries ≠ [] →
        ∃ l, scan_music_files d = .ok l
          ∧ l.Perm (supportedFilesList d.path d.entries)
          ∧ l.Pairwise (fun a b => pathLe a b = true)) := by
  have hscan := scanEntries_ok_of_allReadable d.path d.entries hall
  constructor
  · intro hempty
    simp [scan_music_files, hr, hscan, hempty]
  · intro hne
    refine ⟨(supportedFilesList d.path d.entries).mergeSort pathLe, ?_,
      List.mergeSort_perm _ _, ?_⟩
    · simp [scan_music_files, hr, hscan, List.isEmpty_iff, hne]
    · exact List.sorted_mergeSort pathLe_trans pathLe_total _

/-- Witness for `scan_music_files_spec`: a root with one unsupported
file, one supported file, and a nested supported file. -/
theorem scan_music_files_spec_witness :
    (supportedFilesList "music"
        [Entry.file "b.mp3", Entry.dir "sub" true [Entry.file "a.OGG"],
         Entry.file "x.txt"] = [] →
      scan_music_files
          ⟨"music",
           true,
           [Entry.file "b.mp3", Entry.dir "sub" true [Entry.file "a.OGG"],
            Entry.file "x.txt"]⟩ =
        .error "No supported audio files found in directory")
    ∧ (supportedFilesList "music"
          [Entry.file "b.mp3", Entry.dir "sub" true [Entry.file "a.OGG"],
           Entry.file "x.txt"] ≠ [] →
        ∃ l, scan_music_files
              ⟨"music",
               true,
               [Entry.file "b.mp3", Entry.dir "sub" true [Entry.file "a.OGG"],
                Entry.file "x.txt"]⟩ = .ok l
          ∧ l.Perm (supportedFilesList "music"
              [Entry.file "b.mp3", Entry.dir "sub" true [Entry.file "a.OGG"],
               Entry.file "x.txt"])
          ∧ l.Pairwise (fun a b => pathLe a b = true)) :=
  scan_music_files_spec
    ⟨"music",
     true,
     [Entry.file "b.mp3", Entry.dir "sub" true [Entry.file "a.OGG"],
      Entry.file "x.txt"]⟩
    rfl (by simp [allReadableList, allReadable])

/-! ### Claim C6: unreadable entries during the scan

The claim asserts that an unreadable entry inside a subdirectory does
not abort the scan.  The code contradicts it: `scan_recursive`
propagates every traversal error with `?` — including errors raised
arbitrarily deep in the recursion — so any unreadable directory aborts
the whole scan. -/

/-- A root with a readable supported file and, inside a readable
subdirectory, an unreadable directory. -/
def unreadableExample : RootDir :=
  ⟨"music",
   true,
   [Entry.file "a.mp3", Entry.dir "sub" true [Entry.dir "deep" false []]]⟩

/-- Counterexample to claim C6: on `unreadableExample` the readable
supported files are non-empty (`music/a.mp3`), yet the scan aborts
with an error because the unreadable directory nested inside the
readable subdirectory is propagated with `?`. -/
theorem scan_unreadable_subdir_counterexample :
    scan_music_files unreadableExample = .error "DirectoryUnreadable"
    ∧ supportedFiles unreadableExample.path (Entry.file "a.mp3") =
        ["music/a.mp3"] := by
  constructor
  · rfl
  · rfl

/-- Claim C6 amended: any unreadable directory encountered during the
traversal — at the top level or nested arbitrarily deep inside
subdirectories — aborts the whole scan with an error; no file list is
returned. -/
theorem scan_unreadable_aborts (d : RootDir)
    (h : d.readable = false ∨ allReadableList d.entries = false) :
    ∃ m, scan_music_files d = .error m := by
  by_cases hr : d.readable
  · rcases h with h | h
    · rw [hr] at h
      cases h
    · obtain ⟨m, hm⟩ := scanEntries_error_of_unreadable d.path d.entries h
      exact ⟨m, by simp [scan_music_files, hr, hm]⟩
  · refine ⟨"DirectoryUnreadable", ?_⟩
    simp [scan_music_files, hr]

/-- Witness for `scan_unreadable_aborts` at `unreadableExample`. -/
theorem scan_unreadable_aborts_witness :
    ∃ m, scan_music_files unreadableExample = .error m :=
  scan_unreadable_aborts unreadableExample
    (Or.inr (by simp [unreadableExample, allReadableList, allReadable]))

/-! ### Claim C8: the cursor invariant -/

theorem range_map_getD (l : List String) :
    (List.range l.length).map (fun i => l.getD i "") = l := by
  induction l with
  | nil => rfl
  | cons a t ih =>
      rw [List.length_cons, List.range_succ_eq_map, List.map_cons, List.map_map]
      have hcomp :
          ((fun i => (a :: t).getD i "") ∘ Nat.succ) = fun i => t.getD i "" := by
        funext i
        simp [List.getD_cons_succ]
      rw [hcomp]
      simp only [List.getD_cons_zero]
      rw [ih]

theorem applyPerm_perm (l : List String) (σ : List Nat) :
    (applyPerm l σ).Perm l := by
  unfold applyPerm
  split
  · rename_i h
    have := h.map (fun i => l.getD i "")
    rw [range_map_getD l] at this
    exact this
  · exact List.Perm.refl l

/-- The data invariant of the session loop: the active playlist is a
permutation of the scanned files, and the cursor never exceeds the
playlist length. -/
def sessionInv (files : List String) (s : Session) : Prop :=
  s.playlist.Perm files ∧ s.cursor ≤ s.playlist.length

theorem shuffleEnable_inv (playlist : List String) (cursor : Nat)
    (shuffled : List String) (hperm : shuffled.Perm playlist)
    (hlen : 0 < playlist.length) (hc : cursor ≤ playlist.length) :
    ((shuffleEnable playlist cursor shuffled).1).Perm playlist
    ∧ (shuffleEnable playlist cursor shuffled).2 ≤
        ((shuffleEnable playlist cursor shuffled).1).length := by
  cases hpos : position (fun x => x == capturedTrack playlist cursor) shuffled with
  | some pos =>
      simp only [shuffleEnable, hpos]
      have hp : ((listSwap shuffled 0 pos).Perm shuffled) := listSwap_perm _ _ _
      have hperm2 := hp.trans hperm
      refine ⟨hperm2, ?_⟩
      have hlen2 : (listSwap shuffled 0 pos).length = playlist.length :=
        hperm2.length_eq
      simp only [hlen2]
      omega
  | none =>
      simp only [shuffleEnable, hpos]
      refine ⟨hperm, ?_⟩
      simp only [hperm.length_eq]
      exact hc

theorem applyOp_inv (files : List String) (s : Session) (op : Op)
    (hne : files ≠ []) (h : sessionInv files s) :
    sessionInv files (applyOp files s op) := by
  obtain ⟨hperm, hc⟩ := h
  have hflen : 0 < files.length := List.length_pos.mpr hne
  have hplen : 0 < s.playlist.length := by
    rw [hperm.length_eq]
    exact hflen
  cases op with
  | advance sinkEmpty res =>
      simp only [applyOp]
      split
      · rename_i hcond
        have hlt : s.cursor < s.playlist.length := by
          have := (Bool.and_eq_true _ _).mp hcond
          exact of_decide_eq_true this.2
        exact ⟨hperm, by simpa using hlt⟩
      · exact ⟨hperm, hc⟩
  | next => exact ⟨hperm, hc⟩
  | previous =>
      refine ⟨hperm, ?_⟩
      show (previousCommand s.playlist.length s.cursor).1 ≤ s.playlist.length
      exact Nat.le_of_lt (previousCommand_lt s.playlist.length s.cursor hplen hc)
  | restart =>
      refine ⟨hperm, ?_⟩
      show (restartCommand s.cursor).1 ≤ s.playlist.length
      unfold restartCommand
      split
      · show s.cursor - 1 ≤ s.playlist.length
        omega
      · exact hc
  | shuffleToggle σ =>
      simp only [applyOp]
      split
      · refine ⟨List.mergeSort_perm files pathLe, ?_⟩
        show s.cursor ≤ (files.mergeSort pathLe).length
        have hms : (files.mergeSort pathLe).length = files.length :=
          (List.mergeSort_perm files pathLe).length_eq
        have hfl : s.playlist.length = files.length := hperm.length_eq
        omega
      · have := shuffleEnable_inv s.playlist s.cursor (applyPerm s.playlist σ)
          (applyPerm_perm s.playlist σ) hplen hc
        exact ⟨this.1.trans hperm, this.2⟩
  | exhausted sinkEmpty =>
      refine ⟨hperm, ?_⟩
      show (exhaustedCheck s.playlist.length s.cursor sinkEmpty).1 ≤
        s.playlist.length
      unfold exhaustedCheck
      split
      · show 0 ≤ s.playlist.length
        omega
      · exact hc

/-- Claim C8: in every session state reachable by the loop's
cursor-affecting operations (advance-on-empty, next, previous, restart,
shuffle toggle, and the exhaustion reset) over a non-empty playlist,
the cursor satisfies `0 ≤ cursor ≤ len(playlist)`: each operation
preserves the bound. -/
theorem cursor_invariant (files : List String) (s : Session) (ops : List Op)
    (hne : files ≠ []) (hperm : s.playlist.Perm files)
    (hc : s.cursor ≤ s.playlist.length) :
    0 ≤ (runOps files s ops).cursor
    ∧ (runOps files s ops).cursor ≤ (runOps files s ops).playlist.length := by
  refine ⟨Nat.zero_le _, ?_⟩
  induction ops generalizing s with
  | nil => exact hc
  | cons op ops ih =>
      have hstep := applyOp_inv files s op hne ⟨hperm, hc⟩
      exact ih (applyOp files s op) hstep.1 hstep.2

/-- Witness for `cursor_invariant`: files `[b, a]`, initial state with
cursor 0, and a run through advance, shuffle-enable, previous, a second
shuffle toggle (disable), and the exhaustion check. -/
theorem cursor_invariant_witness :
    0 ≤ (runOps ["b", "a"] ⟨["b", "a"], 0, false⟩
          [.advance true .ok, .shuffleToggle [1, 0], .previous,
           .shuffleToggle [0, 1], .exhausted true]).cursor
    ∧ (runOps ["b", "a"] ⟨["b", "a"], 0, false⟩
          [.advance true .ok, .shuffleToggle [1, 0], .previous,
           .shuffleToggle [0, 1], .exhausted true]).cursor ≤
        (runOps ["b", "a"] ⟨["b", "a"], 0, false⟩
          [.advance true .ok, .shuffleToggle [1, 0], .previous,
           .shuffleToggle [0, 1], .exhausted true]).playlist.length :=
  cursor_invariant ["b", "a"] ⟨["b", "a"], 0, false⟩
    [.advance true .ok, .shuffleToggle [1, 0], .previous,
     .shuffleToggle [0, 1], .exhausted true]
    (by decide) (List.Perm.refl _) (by decide)

end Audix
